import Mathlib

/-!
Verification development for the 1C MCP toolkit proxy's request-correlation and
channel-isolation core: per-channel command queues with an id→channel index
(`command_queue.py`), channel-id validation and session binding
(`channel_registry.py`, `channel_middleware.py`), the legacy SSE POST handler
(`channel_sse_transport.py`) and the `/1c/result` payload builder (`server.py`).

Python dicts are modelled as association lists with unique keys (insertion
order preserved, assignment overwrites in place, `pop` removes the key).
`asyncio` state is modelled sequentially: each public coroutine is an atomic
transition on the queue state; waiting primitives are evaluated in a quiescent
state, so a blocking dequeue on an empty queue observes the timeout and a
result wait that times out takes the `asyncio.TimeoutError` branch.
-/

namespace OneC

/-- Lookup in a Python-dict model: first binding of the key wins. -/
def dlookup {β : Type} (k : String) : List (String × β) → Option β
  | [] => none
  | (k', v) :: rest => if k' = k then some v else dlookup k rest

/-- Dict assignment `d[k] = v`: overwrite the existing binding, else append. -/
def dinsert {β : Type} (k : String) (v : β) : List (String × β) → List (String × β)
  | [] => [(k, v)]
  | (k', v') :: rest => if k' = k then (k', v) :: rest else (k', v') :: dinsert k v rest

/-- Dict removal `d.pop(k, None)`: the key is dropped (keys are unique in a dict). -/
def derase {β : Type} (k : String) : List (String × β) → List (String × β)
  | [] => []
  | (k', v) :: rest => if k' = k then derase k rest else (k', v) :: derase k rest

/-! ## channel_registry.py -/

/-- Characters stripped by Python `str.strip()` (`str.isspace` set). -/
def isPyWhitespace (c : Char) : Bool :=
  c = ' ' ∨ c = '\t' ∨ c = '\n' ∨ c.val = 0x0b ∨ c.val = 0x0c ∨ c = '\r' ∨
  (0x1c ≤ c.val ∧ c.val ≤ 0x1f) ∨ c.val = 0x85 ∨ c.val = 0xa0 ∨ c.val = 0x1680 ∨
  (0x2000 ≤ c.val ∧ c.val ≤ 0x200a) ∨ c.val = 0x2028 ∨ c.val = 0x2029 ∨
  c.val = 0x202f ∨ c.val = 0x205f ∨ c.val = 0x3000

/-- Drop the characters satisfying `p` from both ends of a list. -/
def dropWhileEnds (p : Char → Bool) (l : List Char) : List Char :=
  ((l.dropWhile p).reverse.dropWhile p).reverse

/-- Python `s.strip()`. -/
def pyStrip (s : String) : String :=
  String.mk (dropWhileEnds isPyWhitespace s.data)

/-- A character allowed by `CHANNEL_ID_PATTERN`, i.e. `[a-zA-Z0-9_-]`. -/
def isChannelIdChar (c : Char) : Bool :=
  ('a' ≤ c ∧ c ≤ 'z') ∨ ('A' ≤ c ∧ c ≤ 'Z') ∨ ('0' ≤ c ∧ c ≤ '9') ∨ c = '_' ∨ c = '-'

/-- The plain reading of the regex `^[a-zA-Z0-9_-]{1,64}$` on a char list. -/
def coreMatch (l : List Char) : Bool :=
  decide (1 ≤ l.length) && decide (l.length ≤ 64) && l.all isChannelIdChar

/-- `CHANNEL_ID_PATTERN.match(s)` succeeded: Python's `$` also matches just
before a newline that ends the string, so that alternative is included. -/
def channelPatternMatch (s : String) : Bool :=
  coreMatch s.data ||
    (match s.data.getLast? with
     | some c => (c == '\n') && coreMatch s.data.dropLast
     | none => false)

def DEFAULT_CHANNEL : String := "default"

namespace ChannelRegistry

/-- `ChannelRegistry.validate_channel_id`: empty or whitespace-only input (the
falsy/blank check `not channel_id or not channel_id.strip()`) and input whose
stripped form misses the pattern normalize to `DEFAULT_CHANNEL`; otherwise the
stripped input is returned. -/
def validate_channel_id (channel_id : String) : String :=
  if channel_id = "" ∨ pyStrip channel_id = "" then DEFAULT_CHANNEL
  else
    let stripped := pyStrip channel_id
    if channelPatternMatch stripped then stripped else DEFAULT_CHANNEL

/-- `ChannelRegistry.register`: store the validated channel for the session. -/
def register (sessions : List (String × String)) (session_id channel_id : String) :
    List (String × String) :=
  dinsert session_id (validate_channel_id channel_id) sessions

/-- `ChannelRegistry.get_channel`: bound channel or the default. -/
def get_channel (sessions : List (String × String)) (session_id : String) : String :=
  (dlookup session_id sessions).getD DEFAULT_CHANNEL

/-- `ChannelRegistry.has_session`. -/
def has_session (sessions : List (String × String)) (session_id : String) : Bool :=
  (dlookup session_id sessions).isSome

end ChannelRegistry

/-! ## channel_middleware.py -/

namespace ChannelMiddleware

/-- One HTTP pass through `ChannelMiddleware.__call__` for an `http` scope.
Inputs: the registry (`channel_registry._sessions`), the request's
`mcp-session-id` header (`none` when absent, `some ""` when present but
empty — Python treats the latter as falsy), the first `channel` query value
(the caller passes `DEFAULT_CHANNEL` when the query key is absent, matching
`params.get("channel", [DEFAULT_CHANNEL])[0]`), and the `mcp-session-id`
header of the outgoing response, if any.  Returns the effective channel that
is stored in `scope["channel"]` together with the registry after the
response-header interception (`send_wrapper`). -/
def call (sessions : List (String × String)) (request_session_id : Option String)
    (raw_channel : String) (response_session_id : Option String) :
    String × List (String × String) :=
  let query_channel := ChannelRegistry.validate_channel_id raw_channel
  let effective_channel :=
    match request_session_id with
    | some sid =>
        if (sid != "") && ChannelRegistry.has_session sessions sid then
          ChannelRegistry.get_channel sessions sid
        else query_channel
    | none => query_channel
  let is_new_session := request_session_id.isNone
  let sessions' :=
    if is_new_session then
      match response_session_id with
      | some sid =>
          if sid != "" then ChannelRegistry.register sessions sid effective_channel
          else sessions
      | none => sessions
    else sessions
  (effective_channel, sessions')

end ChannelMiddleware

/-! ## command_queue.py

`α` is the type of tool parameters (`Dict[str, Any]` in the source), `ρ` the
type of results (`Any`).  The `created_at` timestamp and the per-command
`asyncio.Event` object are not fields of the modelled `Command`: the former is
used only by `cleanup_expired` (not modelled), and the event's set/unset state
is tracked per command id in `CommandQueue.events` (ids in `_pending` are
unique, and the event of a command is shared between `_pending` and `_queue`
by reference in the source). -/

structure Command (α : Type) where
  id : String
  tool : String
  params : α
deriving DecidableEq

structure CommandQueue (α ρ : Type) where
  pending : List (String × Command α) := []
  results : List (String × ρ) := []
  queue : List (Command α) := []
  /-- ids whose `result_event` has been `set()` -/
  events : List String := []
deriving DecidableEq

namespace CommandQueue

variable {α ρ : Type}

/-- `CommandQueue.add_command`: the fresh UUID chosen by the source is passed
in as `command_id`; the command is recorded as pending and enqueued. -/
def add_command (q : CommandQueue α ρ) (command_id tool : String) (params : α) :
    CommandQueue α ρ :=
  let command : Command α := ⟨command_id, tool, params⟩
  { q with pending := dinsert command_id command q.pending
           queue := q.queue ++ [command] }

/-- `self._queue.get_nowait()` wrapped by the surrounding `try`: head of the
queue, or `none` on `QueueEmpty`. -/
def get_nowait (q : CommandQueue α ρ) : Option (Command α) × CommandQueue α ρ :=
  match q.queue with
  | [] => (none, q)
  | c :: rest => (some c, { q with queue := rest })

/-- `CommandQueue.get_next_command`: with no timeout or a non-positive one the
source does a non-blocking get; with a positive timeout it blocks on
`asyncio.wait_for(self._queue.get(), timeout)`, which in a quiescent state
yields the head immediately or times out to `None`: the observable dequeue is
the same in both branches. -/
def get_next_command (q : CommandQueue α ρ) (timeout : Option ℚ) :
    Option (Command α) × CommandQueue α ρ :=
  match timeout with
  | none => q.get_nowait
  | some t => if t ≤ 0 then q.get_nowait else q.get_nowait

/-- Whether the call reaches the blocking `asyncio.wait_for` branch with an
empty queue, i.e. whether it would actually suspend the caller. -/
def get_would_wait (q : CommandQueue α ρ) (timeout : Option ℚ) : Bool :=
  match timeout with
  | none => false
  | some t => if t ≤ 0 then false else q.queue.isEmpty

/-- `CommandQueue.set_result`: only membership in `_pending` is checked; the
result is stored (overwriting any earlier one) and the command's event set. -/
def set_result (q : CommandQueue α ρ) (command_id : String) (result : ρ) :
    Bool × CommandQueue α ρ :=
  match dlookup command_id q.pending with
  | none => (false, q)
  | some _ =>
      (true, { q with results := dinsert command_id result q.results
                      events := if command_id ∈ q.events then q.events
                                else q.events ++ [command_id] })

/-- The success path of `CommandQueue.wait_for_result` (the event wait
returned before the timeout, which in the sequential model means the event is
already set): pops and returns the stored result.  `none` means the call
either raises `KeyError` (unknown id) or does not complete now. -/
def wait_for_result_success? (q : CommandQueue α ρ) (command_id : String) :
    Option (Option ρ × CommandQueue α ρ) :=
  match dlookup command_id q.pending with
  | none => none
  | some _ =>
      if command_id ∈ q.events then
        some (dlookup command_id q.results,
              { q with results := derase command_id q.results
                       pending := derase command_id q.pending })
      else none

/-- `CommandQueue.remove_command`. -/
def remove_command (q : CommandQueue α ρ) (command_id : String) :
    Bool × CommandQueue α ρ :=
  if (dlookup command_id q.pending).isSome then
    (true, { q with pending := derase command_id q.pending
                    results := derase command_id q.results })
  else (false, q)

/-- `CommandQueue.get_pending_count`. -/
def get_pending_count (q : CommandQueue α ρ) : Nat :=
  q.pending.length

end CommandQueue

structure ChannelCommandQueue (α ρ : Type) where
  channels : List (String × CommandQueue α ρ)
  commandIndex : List (String × String)
deriving DecidableEq

namespace ChannelCommandQueue

variable {α ρ : Type}

/-- `ChannelCommandQueue.__init__`: the `default` channel always exists. -/
def init : ChannelCommandQueue α ρ :=
  ⟨[("default", {})], []⟩

/-- `ChannelCommandQueue.add_command`: get or lazily create the channel's
queue, enqueue, then record the id→channel mapping. -/
def add_command (s : ChannelCommandQueue α ρ) (channel command_id tool : String)
    (params : α) : ChannelCommandQueue α ρ :=
  let queue := (dlookup channel s.channels).getD {}
  let queue' := queue.add_command command_id tool params
  { channels := dinsert channel queue' s.channels
    commandIndex := dinsert command_id channel s.commandIndex }

/-- `deadline = time.monotonic() + (timeout or 0) if timeout else None`
followed by the first `remaining <= 0` check: a truthy (non-zero) negative
timeout makes the poll return before any dequeue. -/
def deadlineExpired : Option ℚ → Bool
  | none => false
  | some t => decide (t < 0)

/-- The `while True` body of `ChannelCommandQueue.get_next_command`, unfolded
over the channel queue: pop (`CommandQueue.get_next_command`) until a command
still present in the index is found (deliver it) or the queue is exhausted
(in the sequential model the wait then observes the timeout and yields
`None`).  Commands popped while absent from the index are skipped. -/
def drainLoop (index : List (String × String)) :
    List (Command α) → Option (Command α) × List (Command α)
  | [] => (none, [])
  | c :: rest =>
      if (dlookup c.id index).isSome then (some c, rest) else drainLoop index rest

/-- `ChannelCommandQueue.get_next_command`: no queue is created for an unknown
channel; an already-expired deadline returns `None` untouched; otherwise the
skip loop runs on the channel's queue. -/
def get_next_command (s : ChannelCommandQueue α ρ) (channel : String)
    (timeout : Option ℚ) : Option (Command α) × ChannelCommandQueue α ρ :=
  match dlookup channel s.channels with
  | none => (none, s)
  | some queue =>
      if deadlineExpired timeout then (none, s)
      else
        let res := drainLoop s.commandIndex queue.queue
        (res.1, { s with channels := dinsert channel { queue with queue := res.2 } s.channels })

/-- `ChannelCommandQueue.set_result`: O(1) channel lookup through the index;
the index entry is not removed here. -/
def set_result (s : ChannelCommandQueue α ρ) (command_id : String) (result : ρ) :
    Bool × ChannelCommandQueue α ρ :=
  match dlookup command_id s.commandIndex with
  | none => (false, s)
  | some channel =>
      match dlookup channel s.channels with
      | none => (false, s)
      | some queue =>
          let res := queue.set_result command_id result
          (res.1, { s with channels := dinsert channel res.2 s.channels })

/-- The `asyncio.TimeoutError` branch of `ChannelCommandQueue.wait_for_result`:
the index entry is removed, then the pending entry of the underlying queue.
`none` corresponds to the `KeyError` paths (id not in the index, or the index
points to a missing queue). -/
def wait_for_result_timeout (s : ChannelCommandQueue α ρ) (command_id : String) :
    Option (ChannelCommandQueue α ρ) :=
  match dlookup command_id s.commandIndex with
  | none => none
  | some channel =>
      match dlookup channel s.channels with
      | none => none
      | some queue =>
          let res := queue.remove_command command_id
          some { channels := dinsert channel res.2 s.channels
                 commandIndex := derase command_id s.commandIndex }

/-- The success branch of `ChannelCommandQueue.wait_for_result`: delegate to
the channel queue, then clean up the index. -/
def wait_for_result_success? (s : ChannelCommandQueue α ρ) (command_id : String) :
    Option (Option ρ × ChannelCommandQueue α ρ) :=
  match dlookup command_id s.commandIndex with
  | none => none
  | some channel =>
      match dlookup channel s.channels with
      | none => none
      | some queue =>
          match queue.wait_for_result_success? command_id with
          | none => none
          | some res =>
              some (res.1, { channels := dinsert channel res.2 s.channels
                             commandIndex := derase command_id s.commandIndex })

/-- `ChannelCommandQueue.get_stats`: pending counts per channel, channels with
zero pending skipped. -/
def get_stats (s : ChannelCommandQueue α ρ) : List (String × Nat) :=
  (s.channels.map (fun p => (p.1, p.2.get_pending_count))).filter (fun p => 0 < p.2)

end ChannelCommandQueue

/-- The externally visible operations of `ChannelCommandQueue`, as fired by
the HTTP handlers: submit, poll, result submission, and the two exits of a
submitter's wait.  `add` carries the fresh UUID chosen inside `add_command`. -/
inductive Op (α ρ : Type) where
  | add (channel command_id tool : String) (params : α)
  | poll (channel : String) (timeout : Option ℚ)
  | complete (command_id : String) (result : ρ)
  | awaitTimeout (command_id : String)
  | awaitOk (command_id : String)
deriving DecidableEq

/-- State transition of one operation (outputs discarded; the `KeyError` and
would-block paths leave the state unchanged). -/
def applyOp {α ρ : Type} (s : ChannelCommandQueue α ρ) : Op α ρ → ChannelCommandQueue α ρ
  | .add channel command_id tool params => s.add_command channel command_id tool params
  | .poll channel timeout => (s.get_next_command channel timeout).2
  | .complete command_id result => (s.set_result command_id result).2
  | .awaitTimeout command_id => (s.wait_for_result_timeout command_id).getD s
  | .awaitOk command_id =>
      match s.wait_for_result_success? command_id with
      | some res => res.2
      | none => s

/-- Run a sequence of operations from the boot state. -/
def run {α ρ : Type} (ops : List (Op α ρ)) : ChannelCommandQueue α ρ :=
  ops.foldl applyOp ChannelCommandQueue.init

/-- The queue contents of a channel (empty for an absent channel). -/
def queueOf {α ρ : Type} (s : ChannelCommandQueue α ρ) (channel : String) :
    List (Command α) :=
  ((dlookup channel s.channels).getD {}).queue

/-- `n` successive polls on one channel, collecting the delivered commands in
order; polling stops early if a poll comes back empty. -/
def iteratedPolls {α ρ : Type} (s : ChannelCommandQueue α ρ) (channel : String)
    (timeout : Option ℚ) : Nat → List (Command α) × ChannelCommandQueue α ρ
  | 0 => ([], s)
  | n + 1 =>
      match s.get_next_command channel timeout with
      | (none, s') => ([], s')
      | (some c, s') =>
          let rest := iteratedPolls s' channel timeout n
          (c :: rest.1, rest.2)

/-! ## server.py — the `/1c/result` handler's stored payload -/

/-- A JSON value of the request body (`Any` in the pydantic model).  The
handler never looks inside arrays or objects — it only moves them around — so
composite values are carried opaquely by their serialized text. -/
inductive PVal where
  | null
  | bool (b : Bool)
  | int (n : Int)
  | str (s : String)
  | comp (serialized : String)
deriving DecidableEq

/-- The pydantic `CommandResult` model of `server.py`: `id` and `success` are
required, all other fields default to `None`. -/
structure CommandResult where
  id : String
  success : Bool
  data : Option PVal := none
  schema : Option PVal := none
  error : Option String := none
  count : Option Int := none
  truncated : Option Bool := none
  limit : Option Int := none
  returned : Option Int := none
  offset : Option Int := none
  has_more : Option Bool := none
  next_offset : Option Int := none
  configuration : Option PVal := none
  extension : Option String := none
  last_date : Option String := none
  next_same_second_offset : Option Int := none
deriving DecidableEq

/-- An `Optional[Any]` field as it appears in the stored dict: `None` or the
JSON value. -/
def pvalOfOptAny : Option PVal → PVal
  | none => PVal.null
  | some v => v

/-- An `Optional[str]` field as it appears in the stored dict. -/
def pvalOfOptStr : Option String → PVal
  | none => PVal.null
  | some s => PVal.str s

/-- `result_data[key] = value` guarded by `value is not None`. -/
def optEntry (key : String) : Option PVal → List (String × PVal)
  | none => []
  | some v => [(key, v)]

/-- The `result_data` dict built by `receive_result` from the parsed body:
the base `success`/`data`/`error` entries, the `schema` entry only on success
and only when non-null, then the `optional_meta_fields` allow-list in tuple
order, each included only when non-null.  Fields of the body outside the
model are never consulted. -/
def buildResultData (r : CommandResult) : List (String × PVal) :=
  [("success", PVal.bool r.success),
   ("data", pvalOfOptAny r.data),
   ("error", pvalOfOptStr r.error)]
  ++ (if r.success then
        match r.schema with
        | some v => [("schema", v)]
        | none => []
      else [])
  ++ optEntry "truncated" (r.truncated.map PVal.bool)
  ++ optEntry "limit" (r.limit.map PVal.int)
  ++ optEntry "returned" (r.returned.map PVal.int)
  ++ optEntry "count" (r.count.map PVal.int)
  ++ optEntry "offset" (r.offset.map PVal.int)
  ++ optEntry "has_more" (r.has_more.map PVal.bool)
  ++ optEntry "next_offset" (r.next_offset.map PVal.int)
  ++ optEntry "configuration" r.configuration
  ++ optEntry "extension" (r.extension.map PVal.str)
  ++ optEntry "last_date" (r.last_date.map PVal.str)
  ++ optEntry "next_same_second_offset" (r.next_same_second_offset.map PVal.int)

/-- The field names of the pydantic `CommandResult` model. -/
def commandResultFieldNames : List String :=
  ["id", "success", "data", "schema", "error", "count", "truncated", "limit",
   "returned", "offset", "has_more", "next_offset", "configuration",
   "extension", "last_date", "next_same_second_offset"]

/-- Parse a required `str` field; `none` is a validation error. -/
def asStrReq : Option PVal → Option String
  | some (PVal.str s) => some s
  | _ => none

/-- Parse a required `bool` field; `none` is a validation error. -/
def asBoolReq : Option PVal → Option Bool
  | some (PVal.bool b) => some b
  | _ => none

/-- Parse an `Optional[str]` field: absent or JSON null yield `None`; a
non-string value is a validation error (outer `none`). -/
def asOptStr : Option PVal → Option (Option String)
  | none => some none
  | some PVal.null => some none
  | some (PVal.str s) => some (some s)
  | some _ => none

/-- Parse an `Optional[bool]` field. -/
def asOptBool : Option PVal → Option (Option Bool)
  | none => some none
  | some PVal.null => some none
  | some (PVal.bool b) => some (some b)
  | some _ => none

/-- Parse an `Optional[int]` field. -/
def asOptInt : Option PVal → Option (Option Int)
  | none => some none
  | some PVal.null => some none
  | some (PVal.int n) => some (some n)
  | some _ => none

/-- Parse an `Optional[Any]` field: absent and JSON null both yield `None`,
anything else is accepted. -/
def asOptAny : Option PVal → Option PVal
  | none => none
  | some PVal.null => none
  | some v => some v

/-- Build a `CommandResult` from the sixteen field lookups. -/
def CommandResult.ofLookups (idv successv datav schemav errorv countv truncatedv
    limitv returnedv offsetv has_morev next_offsetv configurationv extensionv
    last_datev next_same_second_offsetv : Option PVal) : Option CommandResult :=
  match asStrReq idv, asBoolReq successv, asOptStr errorv, asOptInt countv,
        asOptBool truncatedv, asOptInt limitv, asOptInt returnedv,
        asOptInt offsetv, asOptBool has_morev, asOptInt next_offsetv,
        asOptStr extensionv, asOptStr last_datev,
        asOptInt next_same_second_offsetv with
  | some id, some success, some error, some count, some truncated, some limit,
    some returned, some offset, some has_more, some next_offset,
    some extension, some last_date, some next_same_second_offset =>
      some { id := id, success := success, data := asOptAny datav,
             schema := asOptAny schemav, error := error, count := count,
             truncated := truncated, limit := limit, returned := returned,
             offset := offset, has_more := has_more,
             next_offset := next_offset,
             configuration := asOptAny configurationv, extension := extension,
             last_date := last_date,
             next_same_second_offset := next_same_second_offset }
  | _, _, _, _, _, _, _, _, _, _, _, _, _ => none

/-- Modelled from the spec: `CommandResult(**body)` — pydantic parsing of the
JSON request body (library code, not under `src/`).  Per the spec, "Unknown
fields are ignored": only the declared fields are read, every other key of the
body is discarded; a missing or wrongly-typed required field is a validation
error (`none`, answered with 422 by the handler). -/
def CommandResult.ofDict (d : List (String × PVal)) : Option CommandResult :=
  CommandResult.ofLookups (dlookup "id" d) (dlookup "success" d)
    (dlookup "data" d) (dlookup "schema" d) (dlookup "error" d)
    (dlookup "count" d) (dlookup "truncated" d) (dlookup "limit" d)
    (dlookup "returned" d) (dlookup "offset" d) (dlookup "has_more" d)
    (dlookup "next_offset" d) (dlookup "configuration" d)
    (dlookup "extension" d) (dlookup "last_date" d)
    (dlookup "next_same_second_offset" d)

/-! ## channel_sse_transport.py — `handle_post_message` -/

/-- What `handle_post_message` can push into a session's read-stream writer:
the `ValidationError` of a malformed body, or the decoded session message. -/
inductive StreamItem (E M : Type) where
  | err (e : E)
  | msg (m : M)
deriving DecidableEq

/-- A hexadecimal digit. -/
def isHexDigitChar (c : Char) : Bool :=
  ('0' ≤ c ∧ c ≤ '9') ∨ ('a' ≤ c ∧ c ≤ 'f') ∨ ('A' ≤ c ∧ c ≤ 'F')

/-- Remove every occurrence of a (non-empty) pattern, scanning left to right;
fuel-driven recursion bounded by the input length. -/
def removeOccAux (pat : List Char) : Nat → List Char → List Char
  | _, [] => []
  | 0, l => l
  | fuel + 1, c :: rest =>
      if pat.isPrefixOf (c :: rest) then
        removeOccAux pat fuel (List.drop (pat.length - 1) rest)
      else c :: removeOccAux pat fuel rest

/-- Python `s.replace(pat, "")`. -/
def removeOcc (pat : String) (l : List Char) : List Char :=
  removeOccAux pat.data l.length l

/-- Modelled after the standard library's `uuid.UUID(hex=...)` (not under
`src/`): the `urn:`/`uuid:` markers are dropped, surrounding braces stripped,
hyphens removed; the remainder must be exactly 32 hex digits.  The returned
canonical `.hex` form is lowercase. -/
def pyUUIDhex (s : String) : Option String :=
  let t := removeOcc "urn:" s.data
  let t := removeOcc "uuid:" t
  let t := dropWhileEnds (fun c => c = '\x7b' ∨ c = '\x7d') t
  let t := t.filter (fun c => c ≠ '-')
  if t.length = 32 ∧ t.all isHexDigitChar then
    some (String.mk (t.map Char.toLower))
  else none

namespace ChannelAwareSseTransport

/-- `ChannelAwareSseTransport.handle_post_message` for one POST.  Inputs: the
hex ids of the sessions holding a read-stream writer
(`_read_stream_writers`), the `session_id` query parameter, the request body,
and `JSONRPCMessage.model_validate_json` abstracted as `validate` (library
code; only its success/failure outcome matters here).  Output: the response
status code and the items sent to read-stream writers, tagged with the
owning session's hex id.  Order of checks matches the source: missing
parameter → 400, unparseable UUID → 400, no writer → 404, invalid body →
400 and the error is also sent to the writer, else 202 and the message is
sent to the writer. -/
def handle_post_message {B E M : Type} (writers : List String)
    (session_id_param : Option String) (body : B) (validate : B → Except E M) :
    Nat × List (String × StreamItem E M) :=
  match session_id_param with
  | none => (400, [])
  | some sp =>
      match pyUUIDhex sp with
      | none => (400, [])
      | some hex =>
          if hex ∈ writers then
            match validate body with
            | .error e => (400, [(hex, StreamItem.err e)])
            | .ok m => (202, [(hex, StreamItem.msg m)])
          else (404, [])

end ChannelAwareSseTransport

/-! ## Dictionary lemmas -/

theorem dlookup_dinsert {β : Type} (k k' : String) (v : β) :
    ∀ l, dlookup k (dinsert k' v l) = if k' = k then some v else dlookup k l := by
  intro l
  induction l with
  | nil => by_cases h : k' = k <;> simp [dinsert, dlookup, h]
  | cons p rest ih =>
      obtain ⟨k₀, v₀⟩ := p
      by_cases h : k₀ = k'
      · subst h
        by_cases h2 : k₀ = k <;> simp [dinsert, dlookup, h2]
      · by_cases h2 : k₀ = k
        · subst h2
          have h3 : k' ≠ k₀ := fun he => h he.symm
          simp [dinsert, dlookup, h, h3]
        · by_cases h3 : k' = k
          · subst h3
            simp [dinsert, dlookup, h, h2, ih]
          · simp [dinsert, dlookup, h, h2, h3, ih]

theorem dlookup_dinsert_self {β : Type} (k : String) (v : β) (l : List (String × β)) :
    dlookup k (dinsert k v l) = some v := by
  simp [dlookup_dinsert]

theorem dlookup_dinsert_ne {β : Type} {k k' : String} (v : β) (l : List (String × β))
    (h : k' ≠ k) : dlookup k (dinsert k' v l) = dlookup k l := by
  simp [dlookup_dinsert, h]

theorem dlookup_derase {β : Type} (k k' : String) :
    ∀ l : List (String × β),
      dlookup k (derase k' l) = if k' = k then none else dlookup k l := by
  intro l
  induction l with
  | nil => by_cases h : k' = k <;> simp [derase, dlookup, h]
  | cons p rest ih =>
      obtain ⟨k₀, v₀⟩ := p
      by_cases h : k₀ = k'
      · subst h
        by_cases h2 : k₀ = k
        · subst h2; simp [derase, dlookup, ih]
        · simp [derase, dlookup, h2, ih]
      · by_cases h2 : k₀ = k
        · subst h2
          have h3 : k' ≠ k₀ := fun he => h he.symm
          simp [derase, dlookup, h, h3]
        · by_cases h3 : k' = k
          · subst h3
            simp [derase, dlookup, h, h2, ih]
          · simp [derase, dlookup, h, h2, h3, ih]

theorem dlookup_derase_self {β : Type} (k : String) (l : List (String × β)) :
    dlookup k (derase k l) = none := by
  simp [dlookup_derase]

theorem dlookup_derase_none {β : Type} {k : String} (k' : String)
    {l : List (String × β)} (h : dlookup k l = none) :
    dlookup k (derase k' l) = none := by
  rw [dlookup_derase]
  by_cases hk : k' = k <;> simp [hk, h]

theorem dlookup_mem {β : Type} {k : String} {v : β} :
    ∀ {l : List (String × β)}, dlookup k l = some v → (k, v) ∈ l
  | [], h => by simp [dlookup] at h
  | (k₀, v₀) :: rest, h => by
      by_cases hk : k₀ = k
      · subst hk
        simp [dlookup] at h
        simp [h]
      · simp [dlookup, hk] at h
        exact List.mem_cons_of_mem _ (dlookup_mem h)

theorem dlookup_isSome_of_mem_fst {β : Type} {k : String} :
    ∀ {l : List (String × β)}, k ∈ l.map Prod.fst → (dlookup k l).isSome := by
  intro l
  induction l with
  | nil => intro h; simp at h
  | cons p rest ih =>
      intro h
      obtain ⟨k₀, v₀⟩ := p
      by_cases hk : k₀ = k
      · simp [dlookup, hk]
      · rw [List.map_cons] at h
        rcases List.mem_cons.mp h with h1 | h1
        · exact absurd h1.symm hk
        · simpa [dlookup, hk] using ih h1

/-! ## Claim C10 — non-blocking dequeue -/

/-- C10: `CommandQueue.get_next_command` with a `None` timeout or a
non-positive timeout never waits: it does not reach the blocking branch with
an empty queue, and it returns the head of the queue if one is queued,
`none` otherwise, simply popping the head. -/
theorem get_next_command_nonblocking {α ρ : Type} (q : CommandQueue α ρ)
    (timeout : Option ℚ) (h : timeout = none ∨ ∃ t, timeout = some t ∧ t ≤ 0) :
    q.get_would_wait timeout = false ∧
      q.get_next_command timeout = (q.queue.head?, { q with queue := q.queue.tail }) := by
  have hnow : q.get_nowait = (q.queue.head?, { q with queue := q.queue.tail }) := by
    obtain ⟨pend, res, qu, ev⟩ := q
    cases qu <;> simp [CommandQueue.get_nowait]
  rcases h with h | ⟨t, ht, ht0⟩
  · subst h
    exact ⟨rfl, hnow⟩
  · subst ht
    constructor
    · simp [CommandQueue.get_would_wait, if_pos ht0]
    · simp [CommandQueue.get_next_command, if_pos ht0, hnow]

/-- C10 witness: a non-positive timeout on a queue holding one command pops
and returns that command without waiting. -/
theorem get_next_command_nonblocking_witness :
    (⟨[], [], [(⟨"a", "t", 0⟩ : Command Nat)], []⟩ : CommandQueue Nat Nat).get_would_wait
        (some (-5)) = false ∧
      (⟨[], [], [(⟨"a", "t", 0⟩ : Command Nat)], []⟩ : CommandQueue Nat Nat).get_next_command
        (some (-5)) =
        (some ⟨"a", "t", 0⟩, (⟨[], [], [], []⟩ : CommandQueue Nat Nat)) := by
  have h := get_next_command_nonblocking
    (⟨[], [], [(⟨"a", "t", 0⟩ : Command Nat)], []⟩ : CommandQueue Nat Nat)
    (some (-5)) (Or.inr ⟨-5, rfl, by norm_num⟩)
  exact ⟨h.1, h.2.trans (by decide)⟩

/-! ## Claim C3 — completion is gated by pending membership only -/

/-- C3 counterexample: after a command is submitted and completed once, a
second `set_result` for the same id — before any awaiter consumed the
result — returns `true` again (the claim asserts it returns `false`). -/
theorem set_result_double_counterexample :
    ((({} : CommandQueue Nat Nat).add_command "x" "tool" 0).set_result "x" 1).1 = true ∧
      (((({} : CommandQueue Nat Nat).add_command "x" "tool" 0).set_result "x" 1).2.set_result
          "x" 2).1 = true := by
  decide

/-- C3 amended: `CommandQueue.set_result` returns `true` iff the command id is
currently pending (submitted and not yet consumed by `wait_for_result` nor
removed); it does not check for a previous completion, so a repeated
`set_result` returns the same answer as the first — in particular `true`
again, overwriting the stored result, when the submitter has not yet consumed
it.  It returns `false` only for ids absent from `_pending`. -/
theorem set_result_iff_pending {α ρ : Type} (q : CommandQueue α ρ)
    (command_id : String) (r₁ r₂ : ρ) :
    ((q.set_result command_id r₁).1 = true ↔ (dlookup command_id q.pending).isSome) ∧
      ((q.set_result command_id r₁).2.set_result command_id r₂).1
        = (q.set_result command_id r₁).1 := by
  cases h : dlookup command_id q.pending <;>
    simp [CommandQueue.set_result, h]

/-! ## Claim C4 — channel normalization -/

theorem head?_dropWhile_false {p : Char → Bool} :
    ∀ (l : List Char) {c : Char}, (l.dropWhile p).head? = some c → p c = false
  | [], c, h => by simp [List.dropWhile] at h
  | a :: as, c, h => by
      by_cases hp : p a
      · rw [List.dropWhile_cons, if_pos hp] at h
        exact head?_dropWhile_false as h
      · rw [List.dropWhile_cons, if_neg hp] at h
        simp at h
        subst h
        simpa using hp

theorem pyStrip_getLast_not_ws (s : String) {c : Char}
    (h : (pyStrip s).data.getLast? = some c) : isPyWhitespace c = false := by
  unfold pyStrip dropWhileEnds at h
  rw [show (String.mk (((s.data.dropWhile isPyWhitespace).reverse.dropWhile
        isPyWhitespace).reverse)).data =
      ((s.data.dropWhile isPyWhitespace).reverse.dropWhile isPyWhitespace).reverse from rfl,
    List.getLast?_reverse] at h
  exact head?_dropWhile_false _ h

/-- On a stripped string the newline alternative of Python's `$` anchor can
never fire, so the pattern match is the plain grammar check. -/
theorem channelPatternMatch_pyStrip (s : String) :
    channelPatternMatch (pyStrip s) = coreMatch (pyStrip s).data := by
  unfold channelPatternMatch
  cases h : (pyStrip s).data.getLast? with
  | none => simp
  | some c =>
      have hc := pyStrip_getLast_not_ws s h
      have hnl : (c == '\n') = false := by
        cases hb : c == '\n'
        · rfl
        · have : c = '\n' := by simpa using hb
          subst this
          simp [isPyWhitespace] at hc
      simp [hnl]

/-- C4 counterexample: the input `"default"` is non-empty, not
whitespace-only, and its trimmed form matches the grammar, yet
`validate_channel_id` returns the literal `"default"` — the claim's "if and
only if" fails in the right-to-left … left-to-right direction. -/
theorem validate_channel_id_counterexample :
    ChannelRegistry.validate_channel_id "default" = "default" ∧
      ¬("default" = "" ∨ pyStrip "default" = "" ∨
        channelPatternMatch (pyStrip "default") = false) := by
  decide

/-- C4 amended: `validate_channel_id s` returns `"default"` iff `s` is empty,
whitespace-only or its trimmed form fails the grammar (all three collapse to
the trimmed form failing `CHANNEL_ID_PATTERN`), **or** the trimmed form is
itself the literal `"default"`; whenever the trimmed form matches the grammar
the function returns the trimmed input (which coincides with `"default"` in
the reserved-literal case). -/
theorem validate_channel_id_spec (s : String) :
    (ChannelRegistry.validate_channel_id s = "default" ↔
      (channelPatternMatch (pyStrip s) = false ∨ pyStrip s = "default")) ∧
      (channelPatternMatch (pyStrip s) = true →
        ChannelRegistry.validate_channel_id s = pyStrip s) := by
  unfold ChannelRegistry.validate_channel_id
  by_cases h1 : s = "" ∨ pyStrip s = ""
  · rw [if_pos h1]
    have hps : pyStrip s = "" := by
      rcases h1 with h | h
      · subst h; decide
      · exact h
    refine ⟨⟨fun _ => Or.inl (by rw [hps]; decide), fun _ => rfl⟩, fun hm => ?_⟩
    rw [hps] at hm
    exact absurd hm (by decide)
  · rw [if_neg h1]
    dsimp only
    by_cases hm : channelPatternMatch (pyStrip s) = true
    · rw [if_pos hm]
      refine ⟨⟨fun he => Or.inr he, fun hd => ?_⟩, fun _ => rfl⟩
      rcases hd with hf | hd
      · rw [hm] at hf; cases hf
      · exact hd
    · have hm' : channelPatternMatch (pyStrip s) = false := by
        simpa using hm
      rw [if_neg hm]
      refine ⟨⟨fun _ => Or.inl hm', fun _ => rfl⟩, fun hmm => ?_⟩
      rw [hm'] at hmm; cases hmm

/-- C4 witness: a grammar-conforming input surrounded by whitespace is
returned trimmed. -/
theorem validate_channel_id_spec_witness :
    ChannelRegistry.validate_channel_id " alpha " = "alpha" := by
  have h := (validate_channel_id_spec " alpha ").2 (by decide)
  rw [h]
  decide

/-! ## Claim C7 — bound sessions keep their channel in the middleware -/

/-- C7: for a request whose `mcp-session-id` header carries a session bound in
the registry, the middleware stores the registry's channel for that session in
the request scope — whatever `channel` value the query string carries — and
leaves the registry untouched.  The hypothesis that no registered session id
is the empty string holds at both registration sites of the source: the
middleware registers only a non-empty response header
(`if session_id_bytes:`), and the SSE transport registers `uuid4().hex`. -/
theorem middleware_bound_session_immutable (sessions : List (String × String))
    (S C raw : String) (resp : Option String)
    (hok : ∀ p ∈ sessions, p.1 ≠ "")
    (hbound : dlookup S sessions = some C) :
    (ChannelMiddleware.call sessions (some S) raw resp).1 = C ∧
      (ChannelMiddleware.call sessions (some S) raw resp).2 = sessions := by
  have hS : S ≠ "" := hok (S, C) (dlookup_mem hbound)
  simp [ChannelMiddleware.call, hS, ChannelRegistry.has_session, hbound,
    ChannelRegistry.get_channel]

/-- C7 witness: with session `S1` bound to channel `one`, a request carrying
`S1` and a query channel `two` gets effective channel `one` and the registry
is unchanged even though the response mints another session id. -/
theorem middleware_bound_session_immutable_witness :
    (ChannelMiddleware.call [("S1", "one")] (some "S1") "two" (some "S2")).1 = "one" ∧
      (ChannelMiddleware.call [("S1", "one")] (some "S1") "two" (some "S2")).2
        = [("S1", "one")] :=
  middleware_bound_session_immutable [("S1", "one")] "S1" "one" "two" (some "S2")
    (by decide) (by decide)

/-! ## Claim C9 — legacy SSE POST status codes and dual error surfacing -/

/-- C9: on the legacy SSE message endpoint, a missing `session_id` yields 400
with no stream write, a well-formed but unknown session id yields 404 with no
stream write, and a known session with a body that fails JSON-RPC validation
yields 400 while the decode error is also pushed into that session's
read-stream writer. -/
theorem sse_post_statuses {B E M : Type} (writers : List String) (body : B)
    (validate : B → Except E M) :
    ChannelAwareSseTransport.handle_post_message writers none body validate = (400, []) ∧
      (∀ sp hex, pyUUIDhex sp = some hex → hex ∉ writers →
        ChannelAwareSseTransport.handle_post_message writers (some sp) body validate
          = (404, [])) ∧
      (∀ sp hex e, pyUUIDhex sp = some hex → hex ∈ writers →
        validate body = Except.error e →
        ChannelAwareSseTransport.handle_post_message writers (some sp) body validate
          = (400, [(hex, StreamItem.err e)])) := by
  refine ⟨rfl, ?_, ?_⟩
  · intro sp hex h1 h2
    simp [ChannelAwareSseTransport.handle_post_message, h1, h2]
  · intro sp hex e h1 h2 h3
    simp [ChannelAwareSseTransport.handle_post_message, h1, h2, h3]

/-- C9 witness: concrete session ids exercising the three branches, with a
validator that rejects the body. -/
theorem sse_post_statuses_witness :
    ChannelAwareSseTransport.handle_post_message
        ["aaaaaaaaaaaaaaaaaaaaaaaaaaaaaaaa"] none 7
        (fun _ => (Except.error "bad" : Except String Nat)) = (400, []) ∧
      ChannelAwareSseTransport.handle_post_message
        ["aaaaaaaaaaaaaaaaaaaaaaaaaaaaaaaa"] (some "bbbbbbbbbbbbbbbbbbbbbbbbbbbbbbbb") 7
        (fun _ => (Except.error "bad" : Except String Nat)) = (404, []) ∧
      ChannelAwareSseTransport.handle_post_message
        ["aaaaaaaaaaaaaaaaaaaaaaaaaaaaaaaa"] (some "aaaaaaaaaaaaaaaaaaaaaaaaaaaaaaaa") 7
        (fun _ => (Except.error "bad" : Except String Nat))
        = (400, [("aaaaaaaaaaaaaaaaaaaaaaaaaaaaaaaa", StreamItem.err "bad")]) := by
  refine ⟨(sse_post_statuses _ _ _).1, ?_, ?_⟩
  · exact (sse_post_statuses _ _ _).2.1 "bbbbbbbbbbbbbbbbbbbbbbbbbbbbbbbb"
      "bbbbbbbbbbbbbbbbbbbbbbbbbbbbbbbb" (by decide) (by decide)
  · exact (sse_post_statuses _ _ _).2.2 "aaaaaaaaaaaaaaaaaaaaaaaaaaaaaaaa"
      "aaaaaaaaaaaaaaaaaaaaaaaaaaaaaaaa" "bad" (by decide) (by decide) rfl

/-! ## Claim C8 — result passthrough allow-list -/

theorem mem_map_fst_optEntry (k key : String) (v : Option PVal) :
    k ∈ (optEntry key v).map Prod.fst ↔ (k = key ∧ v ≠ none) := by
  cases v <;> simp [optEntry]

/-- C8: the payload stored for the awaiter by `receive_result` has exactly the
keys `success`, `data`, `error`, the key `schema` iff `success` is true and
the body's `schema` is non-null, and a key of the metadata allow-list iff the
corresponding parsed field is non-null; and the parse of the body reads only
the declared field names, so any other field of the request body cannot
influence the stored payload. -/
theorem receive_result_allowlist :
    (∀ (r : CommandResult) (k : String),
      k ∈ (buildResultData r).map Prod.fst ↔
        (k = "success" ∨ k = "data" ∨ k = "error" ∨
         (k = "schema" ∧ r.success = true ∧ r.schema ≠ none) ∨
         (k = "truncated" ∧ r.truncated ≠ none) ∨
         (k = "limit" ∧ r.limit ≠ none) ∨
         (k = "returned" ∧ r.returned ≠ none) ∨
         (k = "count" ∧ r.count ≠ none) ∨
         (k = "offset" ∧ r.offset ≠ none) ∨
         (k = "has_more" ∧ r.has_more ≠ none) ∨
         (k = "next_offset" ∧ r.next_offset ≠ none) ∨
         (k = "configuration" ∧ r.configuration ≠ none) ∨
         (k = "extension" ∧ r.extension ≠ none) ∨
         (k = "last_date" ∧ r.last_date ≠ none) ∨
         (k = "next_same_second_offset" ∧ r.next_same_second_offset ≠ none))) ∧
      (∀ d₁ d₂ : List (String × PVal),
        (∀ k ∈ commandResultFieldNames, dlookup k d₁ = dlookup k d₂) →
        CommandResult.ofDict d₁ = CommandResult.ofDict d₂) := by
  constructor
  · intro r k
    have hschema : k ∈ (if r.success then
          match r.schema with
          | some v => [("schema", v)]
          | none => ([] : List (String × PVal))
        else []).map Prod.fst ↔ (k = "schema" ∧ r.success = true ∧ r.schema ≠ none) := by
      cases hs : r.success <;> cases hsc : r.schema <;> simp
    simp only [buildResultData, List.map_append, List.mem_append, List.map_cons,
      List.map_nil, List.mem_cons, List.not_mem_nil, or_false, hschema,
      mem_map_fst_optEntry, Option.map_eq_none']
    simp only [ne_eq, Option.map_eq_none', or_assoc]
  · intro d₁ d₂ h
    unfold CommandResult.ofDict
    rw [h "id" (by decide), h "success" (by decide), h "data" (by decide),
      h "schema" (by decide), h "error" (by decide), h "count" (by decide),
      h "truncated" (by decide), h "limit" (by decide), h "returned" (by decide),
      h "offset" (by decide), h "has_more" (by decide), h "next_offset" (by decide),
      h "configuration" (by decide), h "extension" (by decide),
      h "last_date" (by decide), h "next_same_second_offset" (by decide)]

/-- C8 witness: a successful body with a non-null `schema` stores the `schema`
key, and a body differing only in an undeclared `junk` field parses to the same
`CommandResult`. -/
theorem receive_result_allowlist_witness :
    "schema" ∈ (buildResultData
        { id := "i", success := true, schema := some (PVal.int 1) }).map Prod.fst ∧
      CommandResult.ofDict
          [("id", PVal.str "i"), ("success", PVal.bool true), ("junk", PVal.int 7)]
        = CommandResult.ofDict [("id", PVal.str "i"), ("success", PVal.bool true)] :=
  ⟨(receive_result_allowlist.1 _ "schema").mpr (by decide),
    receive_result_allowlist.2 _ _ (by decide)⟩

/-! ## Poll-loop and state-projection lemmas -/

theorem drainLoop_fst_some {α : Type} (idx : List (String × String)) :
    ∀ (l : List (Command α)) {c : Command α},
      (ChannelCommandQueue.drainLoop idx l).1 = some c →
      c ∈ l ∧ (dlookup c.id idx).isSome := by
  intro l
  induction l with
  | nil => intro c h; simp [ChannelCommandQueue.drainLoop] at h
  | cons a rest ih =>
      intro c h
      by_cases ha : (dlookup a.id idx).isSome
      · simp only [ChannelCommandQueue.drainLoop, if_pos ha] at h
        injection h with h
        subst h
        exact ⟨List.mem_cons_self _ _, ha⟩
      · simp only [ChannelCommandQueue.drainLoop, if_neg ha] at h
        rcases ih h with ⟨h1, h2⟩
        exact ⟨List.mem_cons_of_mem _ h1, h2⟩

theorem drainLoop_snd_mem {α : Type} (idx : List (String × String)) :
    ∀ (l : List (Command α)) {c : Command α},
      c ∈ (ChannelCommandQueue.drainLoop idx l).2 → c ∈ l := by
  intro l
  induction l with
  | nil => intro c h; simp [ChannelCommandQueue.drainLoop] at h
  | cons a rest ih =>
      intro c h
      by_cases ha : (dlookup a.id idx).isSome
      · simp only [ChannelCommandQueue.drainLoop, if_pos ha] at h
        exact List.mem_cons_of_mem _ h
      · simp only [ChannelCommandQueue.drainLoop, if_neg ha] at h
        exact List.mem_cons_of_mem _ (ih h)

theorem drainLoop_first {α : Type} (idx : List (String × String)) :
    ∀ (q₀ : List (Command α)) {c : Command α} (q₁ : List (Command α)),
      (∀ d ∈ q₀, dlookup d.id idx = none) → (dlookup c.id idx).isSome →
      ChannelCommandQueue.drainLoop idx (q₀ ++ c :: q₁) = (some c, q₁) := by
  intro q₀
  induction q₀ with
  | nil =>
      intro c q₁ _ hc
      simp [ChannelCommandQueue.drainLoop, hc]
  | cons d q₀' ih =>
      intro c q₁ h0 hc
      have hd : dlookup d.id idx = none := h0 d (List.mem_cons_self _ _)
      have : ¬ (dlookup d.id idx).isSome = true := by simp [hd]
      simp only [List.cons_append, ChannelCommandQueue.drainLoop, if_neg this]
      exact ih q₁ (fun e he => h0 e (List.mem_cons_of_mem _ he)) hc

theorem set_result_queue_eq {α ρ : Type} (q : CommandQueue α ρ)
    (command_id : String) (r : ρ) :
    ((q.set_result command_id r).2).queue = q.queue := by
  cases h : dlookup command_id q.pending <;> simp [CommandQueue.set_result, h]

theorem remove_command_queue_eq {α ρ : Type} (q : CommandQueue α ρ)
    (command_id : String) :
    ((q.remove_command command_id).2).queue = q.queue := by
  by_cases h : (dlookup command_id q.pending).isSome <;>
    simp [CommandQueue.remove_command, h]

theorem wait_success_queue_eq {α ρ : Type} (q : CommandQueue α ρ)
    (command_id : String) {r : Option ρ} {q' : CommandQueue α ρ}
    (h : q.wait_for_result_success? command_id = some (r, q')) :
    q'.queue = q.queue := by
  unfold CommandQueue.wait_for_result_success? at h
  cases hp : dlookup command_id q.pending with
  | none => rw [hp] at h; cases h
  | some cmd =>
      rw [hp] at h
      by_cases he : command_id ∈ q.events
      · rw [if_pos he] at h
        injection h with h
        have := congrArg Prod.snd h
        simp at this
        rw [← this]
      · rw [if_neg he] at h; cases h

theorem get_next_command_index_eq {α ρ : Type} (s : ChannelCommandQueue α ρ)
    (channel : String) (t : Option ℚ) :
    ((s.get_next_command channel t).2).commandIndex = s.commandIndex := by
  unfold ChannelCommandQueue.get_next_command
  cases h : dlookup channel s.channels with
  | none => rfl
  | some q => by_cases hd : ChannelCommandQueue.deadlineExpired t <;> simp [hd]

theorem ccq_set_result_index_eq {α ρ : Type} (s : ChannelCommandQueue α ρ)
    (command_id : String) (r : ρ) :
    ((s.set_result command_id r).2).commandIndex = s.commandIndex := by
  unfold ChannelCommandQueue.set_result
  cases h : dlookup command_id s.commandIndex with
  | none => rfl
  | some ch => cases h2 : dlookup ch s.channels <;> simp [h2]

/-- A command found in a channel's queue after one operation was either put
there by that very operation — an `add` on that same channel — or was already
in that channel's queue before. -/
theorem applyOp_queue_mem {α ρ : Type} (s : ChannelCommandQueue α ρ) (op : Op α ρ)
    (C : String) {cq : CommandQueue α ρ} {c : Command α}
    (hq : dlookup C (applyOp s op).channels = some cq) (hc : c ∈ cq.queue) :
    op = Op.add C c.id c.tool c.params ∨
      ∃ cq₀, dlookup C s.channels = some cq₀ ∧ c ∈ cq₀.queue := by
  cases op with
  | add ch id tool p =>
      simp only [applyOp, ChannelCommandQueue.add_command] at hq
      by_cases hch : ch = C
      · subst hch
        rw [dlookup_dinsert_self] at hq
        injection hq with hq
        rw [← hq] at hc
        simp only [CommandQueue.add_command, List.mem_append] at hc
        rcases hc with hold | hnew
        · cases hl : dlookup ch s.channels with
          | none => rw [hl] at hold; simp at hold
          | some q0 =>
              rw [hl] at hold
              exact Or.inr ⟨q0, rfl, hold⟩
        · left
          have : c = ⟨id, tool, p⟩ := by simpa using hnew
          subst this
          rfl
      · rw [dlookup_dinsert_ne _ _ hch] at hq
        exact Or.inr ⟨cq, hq, hc⟩
  | poll ch t =>
      right
      simp only [applyOp] at hq
      unfold ChannelCommandQueue.get_next_command at hq
      cases hl : dlookup ch s.channels with
      | none => rw [hl] at hq; exact ⟨cq, hq, hc⟩
      | some q0 =>
          rw [hl] at hq
          dsimp only at hq
          by_cases hd : ChannelCommandQueue.deadlineExpired t
          · rw [if_pos hd] at hq; exact ⟨cq, hq, hc⟩
          · rw [if_neg hd] at hq
            dsimp only at hq
            by_cases hch : ch = C
            · subst hch
              rw [dlookup_dinsert_self] at hq
              injection hq with hq
              rw [← hq] at hc
              simp only at hc
              exact ⟨q0, hl, drainLoop_snd_mem _ _ hc⟩
            · rw [dlookup_dinsert_ne _ _ hch] at hq
              exact ⟨cq, hq, hc⟩
  | complete cid r =>
      right
      simp only [applyOp] at hq
      unfold ChannelCommandQueue.set_result at hq
      cases hi : dlookup cid s.commandIndex with
      | none => rw [hi] at hq; exact ⟨cq, hq, hc⟩
      | some ch =>
          rw [hi] at hq
          dsimp only at hq
          cases hl : dlookup ch s.channels with
          | none => rw [hl] at hq; exact ⟨cq, hq, hc⟩
          | some q0 =>
              rw [hl] at hq
              dsimp only at hq
              by_cases hch : ch = C
              · subst hch
                rw [dlookup_dinsert_self] at hq
                injection hq with hq
                rw [← hq] at hc
                rw [set_result_queue_eq] at hc
                exact ⟨q0, hl, hc⟩
              · rw [dlookup_dinsert_ne _ _ hch] at hq
                exact ⟨cq, hq, hc⟩
  | awaitTimeout cid =>
      right
      simp only [applyOp] at hq
      unfold ChannelCommandQueue.wait_for_result_timeout at hq
      cases hi : dlookup cid s.commandIndex with
      | none => rw [hi] at hq; exact ⟨cq, hq, hc⟩
      | some ch =>
          rw [hi] at hq
          dsimp only at hq
          cases hl : dlookup ch s.channels with
          | none => rw [hl] at hq; exact ⟨cq, hq, hc⟩
          | some q0 =>
              rw [hl] at hq
              dsimp only [Option.getD] at hq
              by_cases hch : ch = C
              · subst hch
                rw [dlookup_dinsert_self] at hq
                injection hq with hq
                rw [← hq] at hc
                rw [remove_command_queue_eq] at hc
                exact ⟨q0, hl, hc⟩
              · rw [dlookup_dinsert_ne _ _ hch] at hq
                exact ⟨cq, hq, hc⟩
  | awaitOk cid =>
      right
      simp only [applyOp] at hq
      cases hw : ChannelCommandQueue.wait_for_result_success? s cid with
      | none => rw [hw] at hq; exact ⟨cq, hq, hc⟩
      | some res =>
          rw [hw] at hq
          unfold ChannelCommandQueue.wait_for_result_success? at hw
          cases hi : dlookup cid s.commandIndex with
          | none => rw [hi] at hw; cases hw
          | some ch =>
              rw [hi] at hw
              dsimp only at hw
              cases hl : dlookup ch s.channels with
              | none => rw [hl] at hw; cases hw
              | some q0 =>
                  rw [hl] at hw
                  dsimp only at hw
                  cases hqw : q0.wait_for_result_success? cid with
                  | none => rw [hqw] at hw; cases hw
                  | some res0 =>
                      rw [hqw] at hw
                      injection hw with hw
                      rw [← hw] at hq
                      dsimp only at hq
                      by_cases hch : ch = C
                      · subst hch
                        rw [dlookup_dinsert_self] at hq
                        injection hq with hq
                        rw [← hq] at hc
                        rw [wait_success_queue_eq q0 cid
                          (by rw [hqw])] at hc
                        exact ⟨q0, hl, hc⟩
                      · rw [dlookup_dinsert_ne _ _ hch] at hq
                        exact ⟨cq, hq, hc⟩

/-- Over a whole run: a command sitting in a channel's queue entered it
through an `add` on that channel, unless it was already there initially. -/
theorem foldl_queue_mem {α ρ : Type} :
    ∀ (ops : List (Op α ρ)) (s : ChannelCommandQueue α ρ) (C : String)
      (cq : CommandQueue α ρ) (c : Command α),
      dlookup C (List.foldl applyOp s ops).channels = some cq → c ∈ cq.queue →
      Op.add C c.id c.tool c.params ∈ ops ∨
        ∃ cq₀, dlookup C s.channels = some cq₀ ∧ c ∈ cq₀.queue := by
  intro ops
  induction ops with
  | nil =>
      intro s C cq c h hc
      exact Or.inr ⟨cq, h, hc⟩
  | cons op rest ih =>
      intro s C cq c h hc
      rcases ih (applyOp s op) C cq c h hc with hin | ⟨cq₀, h0, hc0⟩
      · exact Or.inl (List.mem_cons_of_mem _ hin)
      · rcases applyOp_queue_mem s op C h0 hc0 with heq | hold
        · subst heq
          exact Or.inl (List.mem_cons_self _ _)
        · exact Or.inr hold

/-- A poll that delivers a command: the channel's queue exists, the command
was in it, and its id is in the index. -/
theorem get_next_command_some {α ρ : Type} {s : ChannelCommandQueue α ρ}
    {channel : String} {t : Option ℚ} {c : Command α}
    {σ : ChannelCommandQueue α ρ}
    (h : s.get_next_command channel t = (some c, σ)) :
    ∃ cq, dlookup channel s.channels = some cq ∧ c ∈ cq.queue ∧
      (dlookup c.id s.commandIndex).isSome := by
  unfold ChannelCommandQueue.get_next_command at h
  cases hl : dlookup channel s.channels with
  | none => rw [hl] at h; cases h
  | some q0 =>
      rw [hl] at h
      dsimp only at h
      by_cases hd : ChannelCommandQueue.deadlineExpired t
      · rw [if_pos hd] at h; cases h
      · rw [if_neg hd] at h
        have hfst : (ChannelCommandQueue.drainLoop s.commandIndex q0.queue).1 = some c := by
          have := congrArg Prod.fst h
          simpa using this
        rcases drainLoop_fst_some s.commandIndex q0.queue hfst with ⟨hm, hs⟩
        exact ⟨q0, rfl, hm, hs⟩

/-- C1: channel isolation.  Every command delivered by a poll on channel `A`
after any sequence of operations from boot was submitted by an `add` on `A`;
and provided no two `add`s in the run share a command id (ids are fresh
UUIDs), the delivered command was never submitted on any other channel `B`. -/
theorem channel_isolation {α ρ : Type} (ops : List (Op α ρ)) (A : String)
    (t : Option ℚ) (c : Command α) (σ : ChannelCommandQueue α ρ)
    (h : (run ops).get_next_command A t = (some c, σ)) :
    Op.add A c.id c.tool c.params ∈ ops ∧
      ((∀ ch₁ ch₂ id tool₁ tool₂ p₁ p₂, Op.add ch₁ id tool₁ p₁ ∈ ops →
          Op.add ch₂ id tool₂ p₂ ∈ ops → ch₁ = ch₂) →
        ∀ B tool' p', B ≠ A → Op.add B c.id tool' p' ∉ ops) := by
  rcases get_next_command_some h with ⟨cq, hl, hm, _⟩
  have hmem : Op.add A c.id c.tool c.params ∈ ops := by
    rcases foldl_queue_mem ops ChannelCommandQueue.init A cq c hl hm with hin | ⟨cq₀, h0, hc0⟩
    · exact hin
    · have : cq₀ = ({} : CommandQueue α ρ) := by
        by_cases hA : "default" = A <;>
          simp [ChannelCommandQueue.init, dlookup, hA] at h0
        exact h0.symm
      rw [this] at hc0
      simp at hc0
  refine ⟨hmem, fun huniq B tool' p' hBA habs => ?_⟩
  exact hBA (huniq B A c.id tool' c.tool p' c.params habs hmem)

/-- C1 witness: after submitting to `alpha` and `beta`, a poll on `alpha`
delivers the command submitted on `alpha`, which was never submitted on
`beta`. -/
theorem channel_isolation_witness :
    Op.add "alpha" "id1" "X" (0 : Nat) ∈
        ([Op.add "alpha" "id1" "X" 0, Op.add "beta" "id2" "Y" 1] : List (Op Nat Nat)) ∧
      Op.add "beta" "id1" "X" (0 : Nat) ∉
        ([Op.add "alpha" "id1" "X" 0, Op.add "beta" "id2" "Y" 1] : List (Op Nat Nat)) := by
  have h := channel_isolation
    ([Op.add "alpha" "id1" "X" 0, Op.add "beta" "id2" "Y" 1] : List (Op Nat Nat))
    "alpha" none ⟨"id1", "X", 0⟩
    ((run ([Op.add "alpha" "id1" "X" 0, Op.add "beta" "id2" "Y" 1] : List (Op Nat Nat))).get_next_command
      "alpha" none).2 (by decide)
  refine ⟨h.1, h.2 ?_ "beta" "X" 0 (by decide)⟩
  intro ch₁ ch₂ id tool₁ tool₂ p₁ p₂ h1 h2
  simp only [List.mem_cons, List.not_mem_nil, or_false] at h1 h2
  rcases h1 with h1 | h1 <;> rcases h2 with h2 | h2 <;>
    · injection h1 with e1 e2 e3 e4
      injection h2 with f1 f2 f3 f4
      subst e1; subst f1
      first
      | rfl
      | (exfalso; subst e2; simp at f2)

/-- No operation other than an `add` reusing the very same command id can put
an id back into the index once it is absent. -/
theorem applyOp_index_none {α ρ : Type} (s : ChannelCommandQueue α ρ) (op : Op α ρ)
    (x : String) (hx : dlookup x s.commandIndex = none)
    (hop : ∀ ch tool p, op ≠ Op.add ch x tool p) :
    dlookup x (applyOp s op).commandIndex = none := by
  cases op with
  | add ch id tool p =>
      have hid : id ≠ x := by
        intro he
        exact hop ch tool p (by rw [he])
      simp only [applyOp, ChannelCommandQueue.add_command]
      rw [dlookup_dinsert_ne _ _ hid]
      exact hx
  | poll ch t =>
      simpa [applyOp, get_next_command_index_eq] using hx
  | complete cid r =>
      simpa [applyOp, ccq_set_result_index_eq] using hx
  | awaitTimeout cid =>
      simp only [applyOp]
      unfold ChannelCommandQueue.wait_for_result_timeout
      cases hi : dlookup cid s.commandIndex with
      | none => exact hx
      | some ch =>
          dsimp only
          cases hl : dlookup ch s.channels with
          | none => exact hx
          | some q0 =>
              dsimp only [Option.getD]
              exact dlookup_derase_none cid hx
  | awaitOk cid =>
      simp only [applyOp]
      cases hw : ChannelCommandQueue.wait_for_result_success? s cid with
      | none => exact hx
      | some res =>
          unfold ChannelCommandQueue.wait_for_result_success? at hw
          cases hi : dlookup cid s.commandIndex with
          | none => rw [hi] at hw; cases hw
          | some ch =>
              rw [hi] at hw
              dsimp only at hw
              cases hl : dlookup ch s.channels with
              | none => rw [hl] at hw; cases hw
              | some q0 =>
                  rw [hl] at hw
                  dsimp only at hw
                  cases hqw : q0.wait_for_result_success? cid with
                  | none => rw [hqw] at hw; cases hw
                  | some res0 =>
                      rw [hqw] at hw
                      injection hw with hw
                      rw [← hw]
                      exact dlookup_derase_none cid hx

/-- Once an id is out of the index it stays out, along any continuation that
does not submit a new command with that very id. -/
theorem foldl_index_none {α ρ : Type} :
    ∀ (ops : List (Op α ρ)) (s : ChannelCommandQueue α ρ) (x : String),
      dlookup x s.commandIndex = none →
      (∀ ch tool p, Op.add ch x tool p ∉ ops) →
      dlookup x (List.foldl applyOp s ops).commandIndex = none := by
  intro ops
  induction ops with
  | nil => intro s x hx _; exact hx
  | cons op rest ih =>
      intro s x hx hops
      refine ih (applyOp s op) x ?_ ?_
      · refine applyOp_index_none s op x hx ?_
        intro ch tool p he
        exact hops ch tool p (he ▸ List.mem_cons_self _ _)
      · intro ch tool p hmem
        exact hops ch tool p (List.mem_cons_of_mem _ hmem)

/-- C2: cancellation after awaiter timeout.  If `wait_for_result` for command
id `x` takes its timeout branch, then along any continuation that does not
reuse id `x` for a new submission: no poll on any channel ever delivers a
command with id `x` (a dequeued `x` is skipped, since delivery requires the
id to be in the index), and every `set_result` for `x` returns `false`. -/
theorem await_timeout_cancels {α ρ : Type} (s : ChannelCommandQueue α ρ)
    (x : String) (s₁ : ChannelCommandQueue α ρ) (ops' : List (Op α ρ))
    (h1 : s.wait_for_result_timeout x = some s₁)
    (h2 : ∀ ch tool p, Op.add ch x tool p ∉ ops') :
    (∀ A t c σ, (List.foldl applyOp s₁ ops').get_next_command A t = (some c, σ) →
      c.id ≠ x) ∧
      (∀ r, ((List.foldl applyOp s₁ ops').set_result x r).1 = false) := by
  have hx1 : dlookup x s₁.commandIndex = none := by
    unfold ChannelCommandQueue.wait_for_result_timeout at h1
    cases hi : dlookup x s.commandIndex with
    | none => rw [hi] at h1; cases h1
    | some ch =>
        rw [hi] at h1
        dsimp only at h1
        cases hl : dlookup ch s.channels with
        | none => rw [hl] at h1; cases h1
        | some q0 =>
            rw [hl] at h1
            dsimp only at h1
            injection h1 with h1
            rw [← h1]
            exact dlookup_derase_self x s.commandIndex
  have hx : dlookup x (List.foldl applyOp s₁ ops').commandIndex = none :=
    foldl_index_none ops' s₁ x hx1 h2
  constructor
  · intro A t c σ h he
    rcases get_next_command_some h with ⟨cq, _, _, hs⟩
    rw [he, hx] at hs
    cases hs
  · intro r
    unfold ChannelCommandQueue.set_result
    rw [hx]

/-- C2 witness: submit `x` then `y` on `alpha`; after the awaiter for `x`
times out, the next poll on `alpha` skips `x` and delivers `y`, and a
`set_result` for `x` returns `false`. -/
theorem await_timeout_cancels_witness :
    (((run ([Op.add "alpha" "x" "t" 0, Op.add "alpha" "y" "u" 1] : List (Op Nat Nat))).wait_for_result_timeout
        "x").getD ChannelCommandQueue.init |>.set_result "x" 5).1 = false ∧
      ((((run ([Op.add "alpha" "x" "t" 0, Op.add "alpha" "y" "u" 1] : List (Op Nat Nat))).wait_for_result_timeout
        "x").getD ChannelCommandQueue.init |>.get_next_command "alpha" none).1
        = some ⟨"y", "u", 1⟩) := by
  have h := await_timeout_cancels
    (run ([Op.add "alpha" "x" "t" 0, Op.add "alpha" "y" "u" 1] : List (Op Nat Nat)))
    "x"
    (((run ([Op.add "alpha" "x" "t" 0, Op.add "alpha" "y" "u" 1] : List (Op Nat Nat))).wait_for_result_timeout
        "x").getD ChannelCommandQueue.init)
    [] (by decide) (by intro ch tool p hmem; cases hmem)
  exact ⟨h.2 5, by decide⟩

/-- One operation that is not a submit on channel `C` neither creates `C`'s
queue nor makes any index entry point at `C`. -/
theorem applyOp_channel_absent {α ρ : Type} (s : ChannelCommandQueue α ρ)
    (op : Op α ρ) (C : String)
    (h1 : dlookup C s.channels = none)
    (h2 : ∀ cid, dlookup cid s.commandIndex ≠ some C)
    (hop : ∀ id tool p, op ≠ Op.add C id tool p) :
    dlookup C (applyOp s op).channels = none ∧
      ∀ cid, dlookup cid (applyOp s op).commandIndex ≠ some C := by
  cases op with
  | add ch id tool p =>
      have hch : ch ≠ C := by
        intro he
        exact hop id tool p (by rw [he])
      simp only [applyOp, ChannelCommandQueue.add_command]
      constructor
      · rw [dlookup_dinsert_ne _ _ hch]; exact h1
      · intro cid
        rw [dlookup_dinsert]
        by_cases hc : id = cid
        · simp [hc, hch]
        · simp only [hc, if_false]
          exact h2 cid
  | poll ch t =>
      constructor
      · simp only [applyOp]
        unfold ChannelCommandQueue.get_next_command
        cases hl : dlookup ch s.channels with
        | none => exact h1
        | some q0 =>
            dsimp only
            by_cases hd : ChannelCommandQueue.deadlineExpired t
            · rw [if_pos hd]; exact h1
            · rw [if_neg hd]
              dsimp only
              have hch : ch ≠ C := by
                intro he
                rw [he, h1] at hl
                cases hl
              rw [dlookup_dinsert_ne _ _ hch]
              exact h1
      · intro cid
        simp only [applyOp]
        rw [get_next_command_index_eq]
        exact h2 cid
  | complete cid0 r =>
      constructor
      · simp only [applyOp]
        unfold ChannelCommandQueue.set_result
        cases hi : dlookup cid0 s.commandIndex with
        | none => exact h1
        | some ch =>
            dsimp only
            cases hl : dlookup ch s.channels with
            | none => exact h1
            | some q0 =>
                dsimp only
                have hch : ch ≠ C := fun he => h2 cid0 (he ▸ hi)
                rw [dlookup_dinsert_ne _ _ hch]
                exact h1
      · intro cid
        simp only [applyOp]
        rw [ccq_set_result_index_eq]
        exact h2 cid
  | awaitTimeout cid0 =>
      simp only [applyOp]
      unfold ChannelCommandQueue.wait_for_result_timeout
      cases hi : dlookup cid0 s.commandIndex with
      | none => exact ⟨h1, h2⟩
      | some ch =>
          dsimp only
          cases hl : dlookup ch s.channels with
          | none => exact ⟨h1, h2⟩
          | some q0 =>
              dsimp only [Option.getD]
              have hch : ch ≠ C := fun he => h2 cid0 (he ▸ hi)
              constructor
              · rw [dlookup_dinsert_ne _ _ hch]
                exact h1
              · intro cid he
                rw [dlookup_derase] at he
                by_cases hc : cid0 = cid
                · rw [if_pos hc] at he; cases he
                · rw [if_neg hc] at he
                  exact h2 cid he
  | awaitOk cid0 =>
      simp only [applyOp]
      cases hw : ChannelCommandQueue.wait_for_result_success? s cid0 with
      | none => exact ⟨h1, h2⟩
      | some res =>
          unfold ChannelCommandQueue.wait_for_result_success? at hw
          cases hi : dlookup cid0 s.commandIndex with
          | none => rw [hi] at hw; cases hw
          | some ch =>
              rw [hi] at hw
              dsimp only at hw
              cases hl : dlookup ch s.channels with
              | none => rw [hl] at hw; cases hw
              | some q0 =>
                  rw [hl] at hw
                  dsimp only at hw
                  cases hqw : q0.wait_for_result_success? cid0 with
                  | none => rw [hqw] at hw; cases hw
                  | some res0 =>
                      rw [hqw] at hw
                      injection hw with hw
                      rw [← hw]
                      have hch : ch ≠ C := fun he => h2 cid0 (he ▸ hi)
                      constructor
                      · dsimp only
                        rw [dlookup_dinsert_ne _ _ hch]
                        exact h1
                      · intro cid he
                        dsimp only at he
                        rw [dlookup_derase] at he
                        by_cases hc : cid0 = cid
                        · rw [if_pos hc] at he; cases he
                        · rw [if_neg hc] at he
                          exact h2 cid he

/-- The absence invariant holds across a whole run that never submits on `C`. -/
theorem foldl_channel_absent {α ρ : Type} :
    ∀ (ops : List (Op α ρ)) (s : ChannelCommandQueue α ρ) (C : String),
      dlookup C s.channels = none →
      (∀ cid, dlookup cid s.commandIndex ≠ some C) →
      (∀ id tool p, Op.add C id tool p ∉ ops) →
      dlookup C (List.foldl applyOp s ops).channels = none ∧
        ∀ cid, dlookup cid (List.foldl applyOp s ops).commandIndex ≠ some C := by
  intro ops
  induction ops with
  | nil => intro s C h1 h2 _; exact ⟨h1, h2⟩
  | cons op rest ih =>
      intro s C h1 h2 hops
      have hop : ∀ id tool p, op ≠ Op.add C id tool p := by
        intro id tool p he
        exact hops id tool p (he ▸ List.mem_cons_self _ _)
      rcases applyOp_channel_absent s op C h1 h2 hop with ⟨h1', h2'⟩
      exact ih (applyOp s op) C h1' h2'
        (fun id tool p hmem => hops id tool p (List.mem_cons_of_mem _ hmem))

/-- C6: a channel other than `default` to which nothing was ever submitted
does not materialize: a poll on it returns `None` and leaves the state
exactly as it was (no queue is created), and the stats afterwards contain no
entry for it. -/
theorem unknown_channel_not_materialized {α ρ : Type} (ops : List (Op α ρ))
    (C : String) (t : Option ℚ) (hC : C ≠ "default")
    (h : ∀ id tool p, Op.add C id tool p ∉ ops) :
    (run ops).get_next_command C t = (none, run ops) ∧
      C ∉ ((run ops).get_stats).map Prod.fst := by
  have hinit1 : dlookup C (ChannelCommandQueue.init : ChannelCommandQueue α ρ).channels
      = none := by
    have : "default" ≠ C := fun he => hC he.symm
    simp [ChannelCommandQueue.init, dlookup, this]
  have hinit2 : ∀ cid,
      dlookup cid (ChannelCommandQueue.init : ChannelCommandQueue α ρ).commandIndex
        ≠ some C := by
    intro cid he
    simp [ChannelCommandQueue.init, dlookup] at he
  rcases foldl_channel_absent ops ChannelCommandQueue.init C hinit1 hinit2 h
    with ⟨h1, _⟩
  have h1' : dlookup C (run ops).channels = none := h1
  constructor
  · unfold ChannelCommandQueue.get_next_command
    rw [h1']
  · intro hmem
    have hchan : C ∈ ((run ops).channels).map Prod.fst := by
      unfold ChannelCommandQueue.get_stats at hmem
      rcases List.mem_map.mp hmem with ⟨p, hp, hpc⟩
      have hp' := List.mem_of_mem_filter hp
      rcases List.mem_map.mp hp' with ⟨q, hq, hqp⟩
      have : q.1 = C := by rw [← hpc, ← hqp]
      exact this ▸ List.mem_map_of_mem Prod.fst hq
    have := dlookup_isSome_of_mem_fst hchan
    rw [h1'] at this
    cases this

/-- C6 witness: after a submit on `alpha`, polling `neverseen` returns `None`
without changing the state and the stats mention only `alpha`. -/
theorem unknown_channel_not_materialized_witness :
    (run ([Op.add "alpha" "x" "t" 0] : List (Op Nat Nat))).get_next_command
        "neverseen" none
      = (none, run ([Op.add "alpha" "x" "t" 0] : List (Op Nat Nat))) ∧
      "neverseen" ∉
        ((run ([Op.add "alpha" "x" "t" 0] : List (Op Nat Nat))).get_stats).map Prod.fst :=
  unknown_channel_not_materialized [Op.add "alpha" "x" "t" 0] "neverseen" none
    (by decide)
    (by
      intro id tool p hmem
      simp only [List.mem_cons, List.not_mem_nil, or_false] at hmem
      injection hmem with e1 e2 e3 e4
      exact absurd e1 (by decide))

/-- Submission appends at the tail of the channel's FIFO. -/
theorem add_command_queueOf {α ρ : Type} (s : ChannelCommandQueue α ρ)
    (C command_id tool : String) (p : α) :
    queueOf (s.add_command C command_id tool p) C
      = queueOf s C ++ [⟨command_id, tool, p⟩] := by
  unfold queueOf ChannelCommandQueue.add_command
  rw [dlookup_dinsert_self]
  simp [CommandQueue.add_command]

/-- A poll with a live deadline delivers the first queued command whose id is
still in the index, dropping the cancelled prefix from the queue. -/
theorem poll_delivers_first_valid {α ρ : Type} (s : ChannelCommandQueue α ρ)
    (C : String) (t : Option ℚ) (cq : CommandQueue α ρ)
    (q₀ : List (Command α)) (c : Command α) (q₁ : List (Command α))
    (hcq : dlookup C s.channels = some cq)
    (hqeq : cq.queue = q₀ ++ c :: q₁)
    (h0 : ∀ d ∈ q₀, dlookup d.id s.commandIndex = none)
    (hc : (dlookup c.id s.commandIndex).isSome)
    (hd : ChannelCommandQueue.deadlineExpired t = false) :
    s.get_next_command C t
      = (some c, { s with channels := dinsert C { cq with queue := q₁ } s.channels }) := by
  unfold ChannelCommandQueue.get_next_command
  rw [hcq]
  dsimp only
  rw [if_neg (by simp [hd])]
  rw [hqeq, drainLoop_first s.commandIndex q₀ q₁ h0 hc]

/-- When every queued command of a channel is still in the index, as many
polls as there are queued commands deliver exactly those commands in FIFO
order. -/
theorem iteratedPolls_delivers_all {α ρ : Type} :
    ∀ (l : List (Command α)) (s : ChannelCommandQueue α ρ) (C : String)
      (t : Option ℚ) (cq : CommandQueue α ρ),
      dlookup C s.channels = some cq → cq.queue = l →
      (∀ c ∈ l, (dlookup c.id s.commandIndex).isSome) →
      ChannelCommandQueue.deadlineExpired t = false →
      (iteratedPolls s C t l.length).1 = l := by
  intro l
  induction l with
  | nil => intro s C t cq _ _ _ _; rfl
  | cons c rest ih =>
      intro s C t cq hcq hql hvalid hd
      have hpoll := poll_delivers_first_valid s C t cq [] c rest hcq
        (by simpa using hql) (by intro d hd'; cases hd')
        (hvalid c (List.mem_cons_self _ _)) hd
      simp only [List.length_cons, iteratedPolls]
      rw [hpoll]
      dsimp only
      congr 1
      exact ih _ C t { cq with queue := rest } (dlookup_dinsert_self _ _ _) rfl
        (fun d hd' => hvalid d (List.mem_cons_of_mem _ hd')) hd

/-- C5: FIFO delivery order on a channel.  (i) `add_command` appends at the
tail of the channel's queue, so commands sit in the queue in submission
order; (ii) a poll delivers the earliest queued command that has not been
cancelled (its id still in the index), skipping only cancelled ones — in
particular a non-cancelled command is delivered before everything submitted
after it; (iii) when none of the queued commands is cancelled, successive
polls return exactly the queue, i.e. the submission order. -/
theorem fifo_delivery {α ρ : Type} :
    (∀ (s : ChannelCommandQueue α ρ) (C command_id tool : String) (p : α),
      queueOf (s.add_command C command_id tool p) C
        = queueOf s C ++ [⟨command_id, tool, p⟩]) ∧
      (∀ (s : ChannelCommandQueue α ρ) (C : String) (t : Option ℚ)
        (cq : CommandQueue α ρ) (q₀ : List (Command α)) (c : Command α)
        (q₁ : List (Command α)),
        dlookup C s.channels = some cq → cq.queue = q₀ ++ c :: q₁ →
        (∀ d ∈ q₀, dlookup d.id s.commandIndex = none) →
        (dlookup c.id s.commandIndex).isSome →
        ChannelCommandQueue.deadlineExpired t = false →
        s.get_next_command C t
          = (some c, { s with channels := dinsert C { cq with queue := q₁ } s.channels })) ∧
      (∀ (s : ChannelCommandQueue α ρ) (C : String) (t : Option ℚ)
        (cq : CommandQueue α ρ),
        dlookup C s.channels = some cq →
        (∀ c ∈ cq.queue, (dlookup c.id s.commandIndex).isSome) →
        ChannelCommandQueue.deadlineExpired t = false →
        (iteratedPolls s C t cq.queue.length).1 = cq.queue) :=
  ⟨fun s C command_id tool p => add_command_queueOf s C command_id tool p,
    fun s C t cq q₀ c q₁ h1 h2 h3 h4 h5 =>
      poll_delivers_first_valid s C t cq q₀ c q₁ h1 h2 h3 h4 h5,
    fun s C t cq h1 h2 h3 =>
      iteratedPolls_delivers_all cq.queue s C t cq h1 rfl h2 h3⟩

/-- C5 witness: two commands submitted on `alpha` in order `x`, `y`; the
queue records them in that order and two successive polls deliver `x` then
`y`. -/
theorem fifo_delivery_witness :
    queueOf ((ChannelCommandQueue.init : ChannelCommandQueue Nat Nat).add_command
        "alpha" "x" "t" 0) "alpha"
      = queueOf (ChannelCommandQueue.init : ChannelCommandQueue Nat Nat) "alpha"
          ++ [⟨"x", "t", 0⟩] ∧
      (iteratedPolls
          (run ([Op.add "alpha" "x" "t" 0, Op.add "alpha" "y" "u" 1] : List (Op Nat Nat)))
          "alpha" none 2).1
        = [⟨"x", "t", 0⟩, ⟨"y", "u", 1⟩] := by
  constructor
  · exact fifo_delivery.1 ChannelCommandQueue.init "alpha" "x" "t" 0
  · exact fifo_delivery.2.2
      (run ([Op.add "alpha" "x" "t" 0, Op.add "alpha" "y" "u" 1] : List (Op Nat Nat)))
      "alpha" none
      ⟨[("x", ⟨"x", "t", 0⟩), ("y", ⟨"y", "u", 1⟩)], [],
        [⟨"x", "t", 0⟩, ⟨"y", "u", 1⟩], []⟩
      (by decide) (by decide) (by decide)

end OneC
